import Mathlib

/-!
Verification development for the GVDG Disc Golf Scene scraper
(`dgs-scraper.py`).  The Python functions relevant to the claims are
shallowly embedded as executable Lean definitions over `String` /
`List Char`, and the claimed properties are proved or refuted about
those definitions.

Modelling conventions:
* Python strings are `String` (a list of unicode scalar chars), and the
  character-class tests (`[A-Za-z]`, `\d`, `\s`, `str.upper`, `str.lower`)
  are modelled at ASCII level, matching CPython behaviour on the ASCII
  inputs the scraper manipulates.  `Char.toUpper`/`Char.toLower` from core
  have exactly Python's behaviour on ASCII letters.
* Python's substring operator `x in s` is `containsSub`.
* Python dicts with fixed string keys (`tournament` records) are the
  structure `Tournament`; the `required_fields` presence/type loop of
  `validate_tournament` is therefore vacuously satisfied and is not
  represented by a runtime check.
* `datetime.strftime("%Y-%m-%d")` is modelled as zero-padded fixed-width
  output (`formatYmd`), the documented CPython behaviour; all years
  reaching it come from a `\d\d\d\d` pattern so are at most 9999.
-/

/-! ### ASCII character helpers -/

/-- Python `\s` (whitespace class) restricted to its ASCII members:
space, tab, newline, carriage return, vertical tab, form feed. -/
def isPyWs (c : Char) : Bool :=
  c == ' ' || c == '\t' || c == '\n' || c == '\r' || c == '\x0b' || c == '\x0c'

/-- The decimal digit characters, indexed 0-9 (used to build the
fixed-width numeric output of `strftime`). Arguments are always reduced
mod 10 by callers. -/
def digitLit (k : Nat) : Char :=
  match k with
  | 0 => '0' | 1 => '1' | 2 => '2' | 3 => '3' | 4 => '4'
  | 5 => '5' | 6 => '6' | 7 => '7' | 8 => '8' | _ => '9'

/-- Two-digit zero-padded rendering (`%m`, `%d` of `strftime`). -/
def pad2 (n : Nat) : List Char :=
  [digitLit (n / 10 % 10), digitLit (n % 10)]

/-- Four-digit zero-padded rendering (`%Y` of `strftime`). -/
def pad4 (n : Nat) : List Char :=
  [digitLit (n / 1000 % 10), digitLit (n / 100 % 10),
   digitLit (n / 10 % 10), digitLit (n % 10)]

/-- `dt.strftime("%Y-%m-%d")`: the ISO date string assembled from the
year, month and day fields. -/
def formatYmd (y m d : Nat) : String :=
  String.mk (pad4 y ++ '-' :: (pad2 m ++ '-' :: pad2 d))

/-! ### Python `in` on strings (substring test) -/

/-- `startsWithCh p l`: `l` begins with `p` (exact chars). -/
def startsWithCh : List Char → List Char → Bool
  | [], _ => true
  | _ :: _, [] => false
  | p :: ps, c :: cs => p == c && startsWithCh ps cs

/-- Python's `pat in s` substring containment on strings. -/
def containsSub (pat : List Char) : List Char → Bool
  | [] => pat.isEmpty
  | c :: cs => startsWithCh pat (c :: cs) || containsSub pat cs

theorem startsWithCh_iff (p l : List Char) :
    startsWithCh p l = true ↔ ∃ t, p ++ t = l := by
  induction p generalizing l with
  | nil => simp [startsWithCh]
  | cons x xs ih =>
    cases l with
    | nil => simp [startsWithCh]
    | cons c cs =>
      simp only [startsWithCh, Bool.and_eq_true, beq_iff_eq, ih]
      constructor
      · rintro ⟨rfl, t, rfl⟩; exact ⟨t, rfl⟩
      · rintro ⟨t, h⟩
        injection h with h1 h2
        exact ⟨h1, t, h2⟩

theorem containsSub_iff (p l : List Char) :
    containsSub p l = true ↔ ∃ s t, s ++ p ++ t = l := by
  induction l with
  | nil =>
    cases p <;> simp [containsSub]
  | cons c cs ih =>
    simp only [containsSub, Bool.or_eq_true, startsWithCh_iff, ih]
    constructor
    · rintro (⟨t, ht⟩ | ⟨s, t, ht⟩)
      · exact ⟨[], t, by simpa using ht⟩
      · exact ⟨c :: s, t, by simp [← ht]⟩
    · rintro ⟨s, t, h⟩
      cases s with
      | nil => exact Or.inl ⟨t, by simpa using h⟩
      | cons a as =>
        injection h with h1 h2
        exact Or.inr ⟨as, t, h2⟩

/-! ### `extract_tier` (dgs-scraper.py lines 180-199)

```python
def extract_tier(text):
    if not text: return "Other"
    text = text.upper()
    if "A-TIER" in text: return "A"
    elif "B-TIER" in text: return "B"
    elif "C-TIER" in text or "C/B-TIER" in text: return "C"
    elif "XC-TIER" in text: return "XC"
    elif "LEAGUE" in text: return "League"
    elif "DOUBLES" in text: return "Doubles"
    else: return "Other"
```
-/

def extract_tier (text : String) : String :=
  if text.data.isEmpty then "Other"
  else
    let t := text.data.map Char.toUpper
    if containsSub "A-TIER".data t then "A"
    else if containsSub "B-TIER".data t then "B"
    else if containsSub "C-TIER".data t || containsSub "C/B-TIER".data t then "C"
    else if containsSub "XC-TIER".data t then "XC"
    else if containsSub "LEAGUE".data t then "League"
    else if containsSub "DOUBLES".data t then "Doubles"
    else "Other"

/-! ### `calculate_distance` (dgs-scraper.py lines 220-252) -/

/-- The fixed city-to-mileage table, in the source's insertion order
(CPython dicts preserve insertion order during iteration). -/
def known_distances : List (String × Nat) :=
  [("greenville", 0), ("farmville", 10), ("ayden", 10), ("winterville", 5),
   ("kinston", 28), ("rocky mount", 40), ("wilson", 35), ("jacksonville", 50),
   ("richlands", 55), ("maysville", 50), ("new bern", 40), ("zebulon", 55),
   ("raleigh", 80), ("goldsboro", 45), ("cary", 75)]

/-- `calculate_distance(city)`: first table entry (in order) that is a
substring of the lowercased city wins; otherwise the fallback 30. -/
def calculate_distance (city : String) : Nat :=
  if city.data.isEmpty then 30
  else
    let city_lower := city.data.map Char.toLower
    match known_distances.find? (fun p => containsSub p.1.data city_lower) with
    | some p => p.2
    | none => 30

/-! ### Tournament records and `validate_tournament` (lines 467-502) -/

/-- A tournament record as built by `parse_tournaments`.  The Python
dict always carries exactly these keys with these types, so the
`required_fields` presence/`isinstance` loop of `validate_tournament`
is vacuously true on this representation. -/
structure Tournament where
  name : String
  date : String
  city : String
  tier : String
  url : String
  distance : Nat
  isGVDG : Bool
  spots : Option String
deriving Repr, DecidableEq

def valid_tiers : List String := ["A", "B", "C", "XC", "League", "Doubles", "Other"]

/-- `re.match(r'^\d{4}-\d{2}-\d{2}$', s)`: ten chars in the digit/dash
pattern; Python's `$` also tolerates one trailing newline. -/
def isDateFormat (s : String) : Bool :=
  match s.data with
  | [a, b, c, d, h1, e, f, h2, g, k] =>
    a.isDigit && b.isDigit && c.isDigit && d.isDigit && h1 == '-' &&
    e.isDigit && f.isDigit && h2 == '-' && g.isDigit && k.isDigit
  | [a, b, c, d, h1, e, f, h2, g, k, nl] =>
    a.isDigit && b.isDigit && c.isDigit && d.isDigit && h1 == '-' &&
    e.isDigit && f.isDigit && h2 == '-' && g.isDigit && k.isDigit && nl == '\n'
  | _ => false

/-- `validate_tournament(t)`: returns `(accept?, reason)`, checking (after
the vacuous presence/type loop) date format, URL host substring, tier enum
membership, and the 200-character name cap — in that order. -/
def validate_tournament (t : Tournament) : Bool × String :=
  if !isDateFormat t.date then (false, "Invalid date format: " ++ t.date)
  else if !containsSub "discgolfscene.com".data t.url.data then
    (false, "Invalid URL: " ++ t.url)
  else if !valid_tiers.contains t.tier then (false, "Invalid tier: " ++ t.tier)
  else if 200 < t.name.length then (false, "Name too long")
  else (true, "OK")

/-! ### `deduplicate_tournaments` (lines 441-451) -/

/-- The loop body of `deduplicate_tournaments`: `seen` is the set of URLs
already emitted (modelled as a list), records are kept in order, a record
whose exact URL string was already seen is dropped. -/
def dedupAux (seen : List String) : List Tournament → List Tournament
  | [] => []
  | t :: ts =>
    if t.url ∈ seen then dedupAux seen ts
    else t :: dedupAux (t.url :: seen) ts

def deduplicate_tournaments (ts : List Tournament) : List Tournament :=
  dedupAux [] ts

/-! ### `filter_future_tournaments` (lines 459-464) -/

/-- Python `str.__ge__` is lexicographic comparison by code point; this is
`lexLe a b = (a <= b)` on char lists. -/
def lexLe : List Char → List Char → Bool
  | [], _ => true
  | _ :: _, [] => false
  | a :: as, b :: bs =>
    if a.toNat < b.toNat then true
    else if b.toNat < a.toNat then false
    else lexLe as bs

/-- A calendar date as carried by `datetime` (proleptic Gregorian). -/
structure PyDate where
  year : Nat
  month : Nat
  day : Nat
deriving Repr, DecidableEq

def isLeapYear (y : Nat) : Bool :=
  y % 4 == 0 && (y % 100 != 0 || y % 400 == 0)

/-- days in a month, as used by `datetime` (Gregorian, with leap Februaries). -/
def daysInMonth (m y : Nat) : Nat :=
  if m == 2 then (if isLeapYear y then 29 else 28)
  else if m == 4 || m == 6 || m == 9 || m == 11 then 30
  else 31

/-- `datetime - timedelta(days=1)` on the date component. -/
def predDay : PyDate → PyDate
  | ⟨y, m, d⟩ =>
    if 2 ≤ d then ⟨y, m, d - 1⟩
    else if 2 ≤ m then ⟨y, m - 1, daysInMonth (m - 1) y⟩
    else ⟨y - 1, 12, 31⟩

def isoOfDate (d : PyDate) : String :=
  formatYmd d.year d.month d.day

/-- `filter_future_tournaments(tournaments)` with the default
`days_back=1` used by `main`: `today` abstracts `datetime.now()`;
records with `t['date'] >= cutoff_str` are kept. -/
def filter_future_tournaments (today : PyDate) (ts : List Tournament) :
    List Tournament :=
  let cutoff := isoOfDate (predDay today)
  ts.filter (fun t => lexLe cutoff.data t.date.data)

/-- A date triple valid for `datetime` within `strftime`'s fixed-width range. -/
def ValidPyDate (t : PyDate) : Prop :=
  1 ≤ t.year ∧ t.year ≤ 9999 ∧ 1 ≤ t.month ∧ t.month ≤ 12 ∧
    1 ≤ t.day ∧ t.day ≤ daysInMonth t.month t.year

instance (t : PyDate) : Decidable (ValidPyDate t) := by
  unfold ValidPyDate; infer_instance

/-! ### Shared helper lemmas about `extract_tier` and `validate_tournament` -/

theorem extract_tier_eq_B (text : String)
    (hB : containsSub "B-TIER".data (text.data.map Char.toUpper) = true)
    (hA : containsSub "A-TIER".data (text.data.map Char.toUpper) = false) :
    extract_tier text = "B" := by
  by_cases h : text.data.isEmpty
  · exfalso
    rw [List.isEmpty_iff.mp h] at hB
    simp only [List.map_nil] at hB
    exact absurd hB (by decide)
  · simp [extract_tier, h, hA, hB]

theorem extract_tier_eq_Other (text : String)
    (hA : containsSub "A-TIER".data (text.data.map Char.toUpper) = false)
    (hB : containsSub "B-TIER".data (text.data.map Char.toUpper) = false)
    (hC : containsSub "C-TIER".data (text.data.map Char.toUpper) = false)
    (hCB : containsSub "C/B-TIER".data (text.data.map Char.toUpper) = false)
    (hX : containsSub "XC-TIER".data (text.data.map Char.toUpper) = false)
    (hL : containsSub "LEAGUE".data (text.data.map Char.toUpper) = false)
    (hD : containsSub "DOUBLES".data (text.data.map Char.toUpper) = false) :
    extract_tier text = "Other" := by
  by_cases h : text.data.isEmpty
  · simp [extract_tier, h]
  · simp [extract_tier, h, hA, hB, hC, hCB, hX, hL, hD]

theorem validate_rejects_bad_tier (t : Tournament)
    (h : valid_tiers.contains t.tier = false) :
    (validate_tournament t).fst = false := by
  unfold validate_tournament
  have h' : t.tier ∉ valid_tiers := by simpa using h
  rcases h1 : isDateFormat t.date with _ | _
  · simp [h1]
  · rcases h2 : containsSub "discgolfscene.com".data t.url.data with _ | _
    · simp [h1, h2]
    · simp [h1, h2, h']

/-- C7: text containing both "B-tier" and "League" keywords (and no
"A-tier") resolves to tier "B" — the first matching keyword in the
priority order A>B>C>XC>League>Doubles wins regardless of position —
and text matching no tier keyword yields "Other". -/
theorem c7_tier_priority :
    (∀ text : String,
      containsSub "B-TIER".data (text.data.map Char.toUpper) = true →
      containsSub "LEAGUE".data (text.data.map Char.toUpper) = true →
      containsSub "A-TIER".data (text.data.map Char.toUpper) = false →
      extract_tier text = "B") ∧
    (∀ text : String,
      containsSub "A-TIER".data (text.data.map Char.toUpper) = false →
      containsSub "B-TIER".data (text.data.map Char.toUpper) = false →
      containsSub "C-TIER".data (text.data.map Char.toUpper) = false →
      containsSub "C/B-TIER".data (text.data.map Char.toUpper) = false →
      containsSub "XC-TIER".data (text.data.map Char.toUpper) = false →
      containsSub "LEAGUE".data (text.data.map Char.toUpper) = false →
      containsSub "DOUBLES".data (text.data.map Char.toUpper) = false →
      extract_tier text = "Other") :=
  ⟨fun text hB _ hA => extract_tier_eq_B text hB hA,
   fun text hA hB hC hCB hX hL hD =>
     extract_tier_eq_Other text hA hB hC hCB hX hL hD⟩

/-- C7 witness: a concrete text with both keywords resolves to "B". -/
theorem c7_witness : extract_tier "B-Tier League Night" = "B" :=
  c7_tier_priority.1 "B-Tier League Night" (by decide) (by decide) (by decide)

/-- C5 counterexample: "PDGA C/B-tier" contains the "C/B-TIER" keyword and
no "A-TIER" keyword, yet `extract_tier` returns "B", not "C" as claimed:
the earlier `B-TIER` substring test already fires inside "C/B-TIER". -/
theorem c5_counterexample :
    containsSub "C/B-TIER".data ("PDGA C/B-tier".data.map Char.toUpper) = true ∧
    containsSub "A-TIER".data ("PDGA C/B-tier".data.map Char.toUpper) = false ∧
    extract_tier "PDGA C/B-tier" = "B" := by
  refine ⟨by decide, by decide, ?_⟩
  exact extract_tier_eq_B _ (by decide) (by decide)

/-- C5 amended: text containing "C/B-tier" (case-insensitively) and no
"A-tier" extracts tier "B", because "B-TIER" is a substring of "C/B-TIER"
and the B check precedes the C check; the `C/B-TIER` alternative in the
source's C branch is unreachable. -/
theorem c5_cb_tier_gives_B :
    ∀ text : String,
      containsSub "C/B-TIER".data (text.data.map Char.toUpper) = true →
      containsSub "A-TIER".data (text.data.map Char.toUpper) = false →
      extract_tier text = "B" := by
  intro text hCB hA
  have hsplit : "C/B-TIER".data = "C/".data ++ "B-TIER".data := rfl
  have hB : containsSub "B-TIER".data (text.data.map Char.toUpper) = true := by
    rw [containsSub_iff] at hCB ⊢
    obtain ⟨s, t, h⟩ := hCB
    refine ⟨s ++ "C/".data, t, ?_⟩
    rw [← h, hsplit]
    simp [List.append_assoc]
  exact extract_tier_eq_B text hB hA

/-- C5 amended witness at a concrete input. -/
theorem c5_witness : extract_tier "Winter C/B-tier Series" = "B" :=
  c5_cb_tier_gives_B "Winter C/B-tier Series" (by decide) (by decide)

/-- C4 counterexample: a text whose only tier keyword is "Teams" extracts
to "Other" (there is no Teams branch in `extract_tier`), and a record
with tier "Teams" is rejected by `validate_tournament` (its `valid_tiers`
enum has no "Teams" either) — contradicting the claim on both counts. -/
theorem c4_counterexample :
    containsSub "TEAMS".data ("PDGA Teams Championship".data.map Char.toUpper) = true ∧
    extract_tier "PDGA Teams Championship" = "Other" ∧
    (validate_tournament
      { name := "Greenville Teams Invitational", date := "2026-01-24",
        city := "Greenville, NC", tier := "Teams",
        url := "https://www.discgolfscene.com/tournaments/Greenville_Teams_Invitational_2026",
        distance := 0, isGVDG := true, spots := none }).fst = false := by
  refine ⟨by decide, ?_, ?_⟩
  · exact extract_tier_eq_Other _ (by decide) (by decide) (by decide) (by decide)
      (by decide) (by decide) (by decide)
  · exact validate_rejects_bad_tier _ (by decide)

/-- C4 amended: the tier enum excludes "Teams".  Text whose only matching
keyword is "Teams" yields "Other", and every record bearing tier "Teams"
fails `validate_tournament`. -/
theorem c4_teams_not_in_enum :
    (∀ text : String,
      containsSub "TEAMS".data (text.data.map Char.toUpper) = true →
      containsSub "A-TIER".data (text.data.map Char.toUpper) = false →
      containsSub "B-TIER".data (text.data.map Char.toUpper) = false →
      containsSub "C-TIER".data (text.data.map Char.toUpper) = false →
      containsSub "C/B-TIER".data (text.data.map Char.toUpper) = false →
      containsSub "XC-TIER".data (text.data.map Char.toUpper) = false →
      containsSub "LEAGUE".data (text.data.map Char.toUpper) = false →
      containsSub "DOUBLES".data (text.data.map Char.toUpper) = false →
      extract_tier text = "Other") ∧
    (∀ t : Tournament, t.tier = "Teams" → (validate_tournament t).fst = false) := by
  constructor
  · intro text _ hA hB hC hCB hX hL hD
    exact extract_tier_eq_Other text hA hB hC hCB hX hL hD
  · intro t ht
    refine validate_rejects_bad_tier t ?_
    rw [ht]; decide

/-- C4 amended witness at concrete inputs. -/
theorem c4_witness : extract_tier "NC Teams Invitational" = "Other" :=
  c4_teams_not_in_enum.1 "NC Teams Invitational" (by decide) (by decide) (by decide)
    (by decide) (by decide) (by decide) (by decide) (by decide)

/-- A record with a 3-character name that satisfies every other
validator check (used for claim C6). -/
def shortNameRec : Tournament :=
  { name := "abc", date := "2026-01-24", city := "Greenville, NC", tier := "B",
    url := "https://www.discgolfscene.com/tournaments/Abc_2026",
    distance := 0, isGVDG := false, spots := none }

/-- C6 counterexample: the validator accepts a record whose name has
length 3, outside the claimed [5,200] bounds — it only enforces the
upper bound. -/
theorem c6_counterexample :
    shortNameRec.name.length = 3 ∧ validate_tournament shortNameRec = (true, "OK") := by
  constructor
  · decide
  · decide

/-- C6 amended: given that the date format, URL host, and tier checks
pass, `validate_tournament` accepts exactly the records whose name has
at most 200 characters; no lower bound on the name is enforced by the
validator (the ≥5 minimum is applied earlier, to raw link text, in
`parse_tournaments`). -/
theorem c6_validator_name_cap_only (t : Tournament)
    (h1 : isDateFormat t.date = true)
    (h2 : containsSub "discgolfscene.com".data t.url.data = true)
    (h3 : valid_tiers.contains t.tier = true) :
    (validate_tournament t).fst = true ↔ t.name.length ≤ 200 := by
  unfold validate_tournament
  rw [h1, h2, h3]
  simp only [Bool.not_true, Bool.false_eq_true, if_false]
  by_cases h4 : 200 < t.name.length <;> simp [h4] <;> omega

/-- C6 amended witness: the concrete 3-character-name record is accepted,
via the amended characterization. -/
theorem c6_witness : (validate_tournament shortNameRec).fst = true ↔
    shortNameRec.name.length ≤ 200 :=
  c6_validator_name_cap_only shortNameRec (by decide) (by decide) (by decide)

/-! ### Deduplication lemmas (claim C3) -/

theorem dedupAux_sublist (seen : List String) (ts : List Tournament) :
    (dedupAux seen ts).Sublist ts := by
  induction ts generalizing seen with
  | nil => simp [dedupAux]
  | cons t ts ih =>
    by_cases h : t.url ∈ seen
    · simp only [dedupAux, if_pos h]
      exact (ih seen).cons t
    · simp only [dedupAux, if_neg h]
      exact (ih (t.url :: seen)).cons₂ t

theorem dedupAux_nodup (seen : List String) (ts : List Tournament) :
    ((dedupAux seen ts).map Tournament.url).Nodup ∧
      ∀ u ∈ (dedupAux seen ts).map Tournament.url, u ∉ seen := by
  induction ts generalizing seen with
  | nil => simp [dedupAux]
  | cons t ts ih =>
    by_cases h : t.url ∈ seen
    · simpa [dedupAux, if_pos h] using ih seen
    · obtain ⟨ih1, ih2⟩ := ih (t.url :: seen)
      simp only [dedupAux, if_neg h, List.map_cons, List.nodup_cons, List.mem_cons]
      refine ⟨⟨fun hmem => ?_, ih1⟩, ?_⟩
      · exact (ih2 _ hmem) (List.mem_cons_self _ _)
      · rintro u (rfl | hu)
        · exact h
        · exact fun hs => (ih2 u hu) (List.mem_cons_of_mem _ hs)

theorem dedupAux_congr (seen1 seen2 : List String) (ts : List Tournament)
    (h : ∀ u, u ∈ seen1 ↔ u ∈ seen2) :
    dedupAux seen1 ts = dedupAux seen2 ts := by
  induction ts generalizing seen1 seen2 with
  | nil => simp [dedupAux]
  | cons t ts ih =>
    by_cases hm : t.url ∈ seen1
    · simp only [dedupAux, if_pos hm, if_pos ((h t.url).mp hm)]
      exact ih seen1 seen2 h
    · simp only [dedupAux, if_neg hm, if_neg (fun hx => hm ((h t.url).mpr hx))]
      refine congrArg _ (ih _ _ fun v => ?_)
      simp only [List.mem_cons, h v]

theorem dedupAux_seen_filter (seen : List String) (u : String) (ts : List Tournament) :
    dedupAux (u :: seen) ts = dedupAux seen (ts.filter (fun s => s.url != u)) := by
  induction ts generalizing seen with
  | nil => simp [dedupAux]
  | cons t ts ih =>
    by_cases hu : t.url = u
    · have hf : (t.url != u) = false := by simp [hu]
      simp only [List.filter_cons, hf, dedupAux, if_pos (by simp [hu] : t.url ∈ u :: seen)]
      exact ih seen
    · have hf : (t.url != u) = true := by simp [hu]
      simp only [List.filter_cons, hf, if_true]
      by_cases hs : t.url ∈ seen
      · simp only [dedupAux, if_pos (List.mem_cons_of_mem _ hs), if_pos hs]
        exact ih seen
      · have hns : t.url ∉ u :: seen := by simp [hu, hs]
        simp only [dedupAux, if_neg hns, if_neg hs]
        refine congrArg _ ?_
        calc dedupAux (t.url :: u :: seen) ts
            = dedupAux (u :: t.url :: seen) ts := by
              refine dedupAux_congr _ _ ts fun v => ?_
              simp only [List.mem_cons]
              tauto
          _ = dedupAux (t.url :: seen) (ts.filter (fun s => s.url != u)) :=
              ih (t.url :: seen)

/-- Two otherwise-identical records whose URLs differ only by a trailing
slash (used for claim C3). -/
def dupRecA : Tournament :=
  { name := "Event Open 2026", date := "2026-05-02", city := "Greenville, NC",
    tier := "C", url := "https://www.discgolfscene.com/tournaments/Event_2026",
    distance := 0, isGVDG := false, spots := none }

def dupRecB : Tournament :=
  { name := "Event Open 2026", date := "2026-05-02", city := "Greenville, NC",
    tier := "C", url := "https://www.discgolfscene.com/tournaments/Event_2026/",
    distance := 0, isGVDG := false, spots := none }

/-- C3 counterexample: `deduplicate_tournaments` keys on the *exact* URL
string — no trailing-slash/query canonicalization happens — so two
candidates whose URLs differ only by a trailing slash both survive,
contradicting the claimed collapse to exactly one record. -/
theorem c3_counterexample :
    dupRecB.url = dupRecA.url ++ "/" ∧
    deduplicate_tournaments [dupRecA, dupRecB] = [dupRecA, dupRecB] := by
  constructor
  · decide
  · decide

/-- C3 amended: deduplication keys on the exact URL string: the output
URLs are pairwise distinct, output order is a subsequence of input order,
and the first occurrence wins — later records with an identical URL are
dropped while records with any other URL (including trailing-slash or
query-string variants) are kept and deduplicated recursively. -/
theorem c3_dedup_exact_url :
    (∀ ts : List Tournament,
      ((deduplicate_tournaments ts).map Tournament.url).Nodup) ∧
    (∀ ts : List Tournament, (deduplicate_tournaments ts).Sublist ts) ∧
    (∀ (t : Tournament) (ts : List Tournament),
      deduplicate_tournaments (t :: ts) =
        t :: deduplicate_tournaments (ts.filter (fun s => s.url != t.url))) := by
  refine ⟨fun ts => (dedupAux_nodup [] ts).1, fun ts => dedupAux_sublist [] ts, ?_⟩
  intro t ts
  unfold deduplicate_tournaments
  simp only [dedupAux, List.not_mem_nil, if_neg (List.not_mem_nil t.url)]
  rw [dedupAux_seen_filter [] t.url ts]
  simp

/-! ### `calculate_distance` lemmas (claim C9) -/

theorem find?_eq_get_of_first {α : Type} (p : α → Bool) (l : List α) (i : Fin l.length)
    (hi : p (l.get i) = true)
    (hj : ∀ j : Fin l.length, (j : Nat) < (i : Nat) → p (l.get j) = false) :
    l.find? p = some (l.get i) := by
  induction l with
  | nil => exact absurd i.isLt (by simp)
  | cons a l ih =>
    rcases i with ⟨iv, hlt⟩
    cases iv with
    | zero =>
      simp only [List.get] at hi
      simp [List.find?_cons_of_pos, hi]
    | succ k =>
      have ha : p a = false := hj ⟨0, by simp⟩ (by simp)
      rw [List.find?_cons_of_neg _ (by simp [ha])]
      have hk : k < l.length := by simpa using hlt
      have := ih ⟨k, hk⟩ (by simpa using hi)
        (fun j hjk => by
          have := hj ⟨j.val + 1, by simpa using Nat.succ_lt_succ j.isLt⟩
            (by simpa using Nat.succ_lt_succ hjk)
          simpa using this)
      simpa using this

/-- C9: distance estimation scans the fixed city table in order and
returns the mileage of the first entry whose (lower-case) name is a
substring of the lower-cased city string; any city matching no entry —
like "Lumberton, NC" — gets exactly the fallback constant 30, the
midpoint of the configured 60-mile radius. -/
theorem c9_distance_table_scan :
    (∀ city : String,
      (∀ p ∈ known_distances,
        containsSub p.1.data (city.data.map Char.toLower) = false) →
      calculate_distance city = 30) ∧
    calculate_distance "Lumberton, NC" = 30 ∧
    (∀ (city : String) (i : Fin known_distances.length),
      city.data.isEmpty = false →
      containsSub (known_distances.get i).1.data (city.data.map Char.toLower) = true →
      (∀ j : Fin known_distances.length, (j : Nat) < (i : Nat) →
        containsSub (known_distances.get j).1.data (city.data.map Char.toLower) = false) →
      calculate_distance city = (known_distances.get i).2) := by
  refine ⟨?_, ?_, ?_⟩
  · intro city h
    by_cases he : city.data.isEmpty
    · simp [calculate_distance, he]
    · have hn : known_distances.find?
          (fun p => containsSub p.1.data (city.data.map Char.toLower)) = none :=
        List.find?_eq_none.mpr (fun x hx => by simp [h x hx])
    
      simp [calculate_distance, he, hn]
  · decide
  · intro city i he hi hj
    have hf := find?_eq_get_of_first
      (fun p => containsSub p.1.data (city.data.map Char.toLower))
      known_distances i hi hj
    simp [calculate_distance, he, hf]

/-- C9 witness: the unknown city gets the fallback via the general theorem. -/
theorem c9_witness : calculate_distance "Lumberton, NC" = 30 :=
  c9_distance_table_scan.1 "Lumberton, NC" (by decide)

/-! ### Lexicographic comparison lemmas (claim C8) -/

theorem lexLe_refl (l : List Char) : lexLe l l = true := by
  induction l with
  | nil => rfl
  | cons c cs ih => simp [lexLe, ih]

theorem lexLe_append_same (xs a b : List Char) :
    lexLe (xs ++ a) (xs ++ b) = lexLe a b := by
  induction xs with
  | nil => rfl
  | cons c cs ih => simp [lexLe, ih]

/-- Strict lexicographic comparison at equal traversal (used only as a
sufficient condition for `lexLe` on extensions). -/
def lexLtS : List Char → List Char → Bool
  | [], _ => false
  | _ :: _, [] => false
  | a :: as, b :: bs =>
    if a.toNat < b.toNat then true
    else if b.toNat < a.toNat then false
    else lexLtS as bs

theorem lexLe_append_of_lexLtS (a b : List Char) (h : lexLtS a b = true)
    (u v : List Char) : lexLe (a ++ u) (b ++ v) = true := by
  induction a generalizing b with
  | nil => simp [lexLtS] at h
  | cons x xs ih =>
    cases b with
    | nil => simp [lexLtS] at h
    | cons y ys =>
      simp only [lexLtS] at h
      simp only [List.cons_append, lexLe]
      by_cases hxy : x.toNat < y.toNat
      · simp [hxy]
      · simp only [hxy, if_false] at h ⊢
        by_cases hyx : y.toNat < x.toNat
        · simp [hyx] at h
        · simp only [hyx, if_false] at h ⊢
          exact ih ys h

theorem pad2_lexLtS : ∀ b < 100, ∀ a < b, lexLtS (pad2 a) (pad2 b) = true := by
  decide

theorem digitLit_toNat : ∀ k < 10, (digitLit k).toNat = 48 + k := by
  decide

theorem pad4_lexLtS (a b : Nat) (hb : b ≤ 9999) (hab : a < b) :
    lexLtS (pad4 a) (pad4 b) = true := by
  have d1 : a / 1000 % 10 < 10 := Nat.mod_lt _ (by omega)
  have d2 : a / 100 % 10 < 10 := Nat.mod_lt _ (by omega)
  have d3 : a / 10 % 10 < 10 := Nat.mod_lt _ (by omega)
  have d4 : a % 10 < 10 := Nat.mod_lt _ (by omega)
  have e1 : b / 1000 % 10 < 10 := Nat.mod_lt _ (by omega)
  have e2 : b / 100 % 10 < 10 := Nat.mod_lt _ (by omega)
  have e3 : b / 10 % 10 < 10 := Nat.mod_lt _ (by omega)
  have e4 : b % 10 < 10 := Nat.mod_lt _ (by omega)
  simp only [pad4, lexLtS]
  rw [digitLit_toNat _ d1, digitLit_toNat _ d2, digitLit_toNat _ d3,
    digitLit_toNat _ d4, digitLit_toNat _ e1, digitLit_toNat _ e2,
    digitLit_toNat _ e3, digitLit_toNat _ e4]
  repeat' split
  all_goals first
    | rfl
    | (exfalso; omega)

theorem daysInMonth_le_31 (m y : Nat) : daysInMonth m y ≤ 31 := by
  unfold daysInMonth
  repeat' split
  all_goals omega

/-- The cutoff string (yesterday) never exceeds today's own ISO string:
fixed-width zero-padded dates compare lexicographically like dates. -/
theorem cutoff_le_today (t : PyDate) (h : ValidPyDate t) :
    lexLe (isoOfDate (predDay t)).data (isoOfDate t).data = true := by
  obtain ⟨y, m, d⟩ := t
  obtain ⟨hy1, hy2, hm1, hm2, hd1, hd2⟩ := h
  simp only at hy1 hy2 hm1 hm2 hd1 hd2
  by_cases hd : 2 ≤ d
  · -- same year and month, day decreases by one
    have hdm : daysInMonth m y ≤ 31 := daysInMonth_le_31 m y
    simp only [predDay, if_pos hd, isoOfDate, formatYmd]
    have hshape : ∀ x : Nat, pad4 y ++ '-' :: (pad2 m ++ '-' :: pad2 x) =
        ((pad4 y ++ '-' :: pad2 m) ++ ['-']) ++ (pad2 x ++ []) := by
      intro x; simp
    rw [hshape (d - 1), hshape d, lexLe_append_same]
    exact lexLe_append_of_lexLtS _ _
      (pad2_lexLtS d (by omega) (d - 1) (by omega)) [] []
  · by_cases hm : 2 ≤ m
    · -- day resets, month decreases by one
      simp only [predDay, if_neg hd, if_pos hm, isoOfDate, formatYmd]
      have hshape : ∀ m' d' : Nat, pad4 y ++ '-' :: (pad2 m' ++ '-' :: pad2 d') =
          (pad4 y ++ ['-']) ++ (pad2 m' ++ ('-' :: pad2 d')) := by
        intro m' d'; simp
      rw [hshape (m - 1) (daysInMonth (m - 1) y), hshape m d, lexLe_append_same]
      exact lexLe_append_of_lexLtS _ _
        (pad2_lexLtS m (by omega) (m - 1) (by omega)) _ _
    · -- January 1st: year decreases by one
      simp only [predDay, if_neg hd, if_neg hm, isoOfDate, formatYmd]
      have hshape : ∀ y' m' d' : Nat, pad4 y' ++ '-' :: (pad2 m' ++ '-' :: pad2 d') =
          pad4 y' ++ ('-' :: (pad2 m' ++ '-' :: pad2 d')) := by
        intro y' m' d'; simp
      rw [hshape (y - 1) 12 31, hshape y m d]
      exact lexLe_append_of_lexLtS _ _
        (pad4_lexLtS (y - 1) y (by omega) (by omega)) _ _

/-- C8: `filter_future_tournaments` keeps exactly the records whose date
string is (lexicographically, hence chronologically) at least the ISO
string of `today − 1 day`; in particular a record dated yesterday or
today survives the one-day grace window. -/
theorem c8_temporal_filter (today : PyDate) (ts : List Tournament)
    (t : Tournament) (h : ValidPyDate today) :
    (t ∈ filter_future_tournaments today ts ↔
      t ∈ ts ∧ lexLe (isoOfDate (predDay today)).data t.date.data = true) ∧
    ((t.date = isoOfDate (predDay today) ∨ t.date = isoOfDate today) →
      t ∈ ts → t ∈ filter_future_tournaments today ts) := by
  constructor
  · simp [filter_future_tournaments, List.mem_filter]
  · rintro (hdate | hdate) hmem
    · refine List.mem_filter.mpr ⟨hmem, ?_⟩
      rw [hdate]
      exact lexLe_refl _
    · refine List.mem_filter.mpr ⟨hmem, ?_⟩
      rw [hdate]
      exact cutoff_le_today today h

/-- Concrete record for the C8 witness. -/
def c8Rec : Tournament :=
  { name := "Hangover Open", date := "2026-01-24", city := "Farmville, NC",
    tier := "B", url := "https://www.discgolfscene.com/tournaments/Hangover_Open_2026",
    distance := 10, isGVDG := true, spots := some "40/72" }

/-- C8 witness: an event dated exactly on the current date survives. -/
theorem c8_witness : c8Rec ∈ filter_future_tournaments ⟨2026, 1, 24⟩ [c8Rec] :=
  (c8_temporal_filter ⟨2026, 1, 24⟩ [c8Rec] c8Rec (by decide)).2
    (Or.inr (by decide)) (by simp)

/-! ### `parse_date` (dgs-scraper.py lines 126-177)

```python
def parse_date(date_text):
    if not date_text: return None
    date_text = date_text.strip()
    date_text = re.sub(r'^[A-Za-z]{3}(-[A-Za-z]{3})?,\s*', '', date_text)
    match = re.match(r'([A-Za-z]{3})\s+(\d{1,2})-\d{1,2},\s*(\d{4})', date_text)
    if match:
        month, day, year = match.groups(); date_text = f"{month} {day}, {year}"
    match = re.match(r'([A-Za-z]{3})\s+(\d{1,2})-[A-Za-z]{3}\s+\d{1,2},\s*(\d{4})', date_text)
    if match:
        month, day, year = match.groups(); date_text = f"{month} {day}, {year}"
    try: return datetime.strptime(date_text.strip(), "%b %d, %Y").strftime("%Y-%m-%d")
    except ValueError: pass
    try: return datetime.strptime(date_text.strip(), "%B %d, %Y").strftime("%Y-%m-%d")
    except ValueError: pass
    return None
```

The regexes are compiled here into deterministic character-list matchers;
in each the local look-ahead character (`-` or `,`) uniquely determines
how many digits the greedy `\d{1,2}` can take, so no further backtracking
is observable.  `strptime`'s `%d` pattern is `(3[01]|[12]\d|0[1-9]|[1-9])`,
`%Y` is exactly four digits, whitespace in the format matches `\s+`, the
month names are matched case-insensitively, and the whole input must be
consumed; the resulting `datetime` constructor validates the day against
the (leap-aware) month length and requires year ≥ 1.
-/

/-- ASCII `[A-Za-z]` (what Python's `[A-Za-z]` matches). -/
def isAsciiAlpha (c : Char) : Bool :=
  (65 ≤ c.toNat && c.toNat ≤ 90) || (97 ≤ c.toNat && c.toNat ≤ 122)

/-- ASCII `\d`. -/
def isAsciiDigit (c : Char) : Bool :=
  48 ≤ c.toNat && c.toNat ≤ 57

/-- Python `str.strip()`: remove leading and trailing whitespace. -/
def pystrip (l : List Char) : List Char :=
  ((l.dropWhile isPyWs).reverse.dropWhile isPyWs).reverse

/-- `re.sub(r'^[A-Za-z]{3}(-[A-Za-z]{3})?,\s*', '', text)`: strip a
three-letter (optionally ranged) weekday prefix together with the comma
and following whitespace; leave the text unchanged when the anchored
pattern does not match. -/
def stripWd (l : List Char) : List Char :=
  match l with
  | c1 :: c2 :: c3 :: rest =>
    if isAsciiAlpha c1 && isAsciiAlpha c2 && isAsciiAlpha c3 then
      match rest with
      | c4 :: rest2 =>
        if c4 == ',' then rest2.dropWhile isPyWs
        else if c4 == '-' then
          match rest2 with
          | c5 :: c6 :: c7 :: c8 :: rest3 =>
            if isAsciiAlpha c5 && isAsciiAlpha c6 && isAsciiAlpha c7 && c8 == ',' then
              rest3.dropWhile isPyWs
            else l
          | _ => l
        else l
      | [] => l
    else l
  | _ => l

/-- Regex `\s+`: at least one whitespace char, consumed greedily. -/
def ws1 : List Char → Option (List Char)
  | c :: rest => if isPyWs c then some (rest.dropWhile isPyWs) else none
  | [] => none

/-- Greedy `\d{1,2}` immediately followed by the literal `sep`; returns
the digit characters and the rest after `sep`.  (The follow character
decides between the one- and two-digit take, exactly as backtracking
would.) -/
def dayThen (sep : Char) : List Char → Option (List Char × List Char)
  | c1 :: c2 :: rest =>
    if isAsciiDigit c1 then
      if c2 == sep then some ([c1], rest)
      else if isAsciiDigit c2 then
        match rest with
        | c3 :: rest2 => if c3 == sep then some ([c1, c2], rest2) else none
        | [] => none
      else none
    else none
  | _ => none

/-- Regex `\d{4}` as a prefix: exactly four digit chars, rest arbitrary. -/
def digits4 : List Char → Option (List Char × List Char)
  | a :: b :: c :: d :: rest =>
    if isAsciiDigit a && isAsciiDigit b && isAsciiDigit c && isAsciiDigit d then
      some ([a, b, c, d], rest)
    else none
  | _ => none

/-- `re.match(r'([A-Za-z]{3})\s+(\d{1,2})-\d{1,2},\s*(\d{4})', ...)`,
returning the three captured groups (month, first day, year). -/
def matchSameMonth (l : List Char) : Option (List Char × List Char × List Char) :=
  match l with
  | c1 :: c2 :: c3 :: rest =>
    if isAsciiAlpha c1 && isAsciiAlpha c2 && isAsciiAlpha c3 then
      match ws1 rest with
      | none => none
      | some r1 =>
        match dayThen '-' r1 with
        | none => none
        | some (day, r2) =>
          match dayThen ',' r2 with
          | none => none
          | some (_, r3) =>
            match digits4 (r3.dropWhile isPyWs) with
            | none => none
            | some (yr, _) => some ([c1, c2, c3], day, yr)
    else none
  | _ => none

/-- `re.match(r'([A-Za-z]{3})\s+(\d{1,2})-[A-Za-z]{3}\s+\d{1,2},\s*(\d{4})', ...)`. -/
def matchCrossMonth (l : List Char) : Option (List Char × List Char × List Char) :=
  match l with
  | c1 :: c2 :: c3 :: rest =>
    if isAsciiAlpha c1 && isAsciiAlpha c2 && isAsciiAlpha c3 then
      match ws1 rest with
      | none => none
      | some r1 =>
        match dayThen '-' r1 with
        | none => none
        | some (day, r2) =>
          match r2 with
          | m1 :: m2 :: m3 :: r3 =>
            if isAsciiAlpha m1 && isAsciiAlpha m2 && isAsciiAlpha m3 then
              match ws1 r3 with
              | none => none
              | some r4 =>
                match dayThen ',' r4 with
                | none => none
                | some (_, r5) =>
                  match digits4 (r5.dropWhile isPyWs) with
                  | none => none
                  | some (yr, _) => some ([c1, c2, c3], day, yr)
            else none
          | _ => none
    else none
  | _ => none

/-- On a match, the source rebuilds the text as `f"{month} {day}, {year}"`
(keeping only the start day); otherwise the text is unchanged. -/
def sameMonthRewrite (l : List Char) : List Char :=
  match matchSameMonth l with
  | some (mon, day, yr) => mon ++ ' ' :: (day ++ ',' :: ' ' :: yr)
  | none => l

def crossMonthRewrite (l : List Char) : List Char :=
  match matchCrossMonth l with
  | some (mon, day, yr) => mon ++ ' ' :: (day ++ ',' :: ' ' :: yr)
  | none => l

/-- One char of an IGNORECASE match against a lowercase-letter pattern
char `p`: the input char is `p` itself or its uppercase variant. -/
def ciDown (c p : Char) : Bool :=
  c == p || c.toNat == p.toNat - 32

/-- Case-insensitive match of the lowercase pattern as a list head. -/
def ciStarts : List Char → List Char → Option (List Char)
  | [], l => some l
  | _ :: _, [] => none
  | p :: ps, c :: cs => if ciDown c p then ciStarts ps cs else none

/-- `%b`: the locale month abbreviations (lowercase), with month numbers. -/
def monthAbbr3 : List (List Char × Nat) :=
  [("jan".data, 1), ("feb".data, 2), ("mar".data, 3), ("apr".data, 4),
   ("may".data, 5), ("jun".data, 6), ("jul".data, 7), ("aug".data, 8),
   ("sep".data, 9), ("oct".data, 10), ("nov".data, 11), ("dec".data, 12)]

/-- `%B`: the full month names (lowercase), with month numbers. -/
def monthFull : List (List Char × Nat) :=
  [("january".data, 1), ("february".data, 2), ("march".data, 3),
   ("april".data, 4), ("may".data, 5), ("june".data, 6), ("july".data, 7),
   ("august".data, 8), ("september".data, 9), ("october".data, 10),
   ("november".data, 11), ("december".data, 12)]

/-- Try each month pattern in turn as a case-insensitive prefix (at most
one can match: the names are prefix-free against each other). -/
def tryMonths : List (List Char × Nat) → List Char → Option (Nat × List Char)
  | [], _ => none
  | p :: ps, l =>
    match ciStarts p.1 l with
    | some rest => some (p.2, rest)
    | none => tryMonths ps l

/-- `strptime`'s `%d` pattern `(3[01]|[12]\d|0[1-9]|[1-9])` with its
ordered-alternation semantics, returning the parsed day value.  (When a
longer alternative matches locally, the shorter one could only succeed if
the second digit equalled the following literal — impossible for a digit —
so committing locally agrees with full regex backtracking.) -/
def parseDayChars : List Char → Option (Nat × List Char)
  | [] => none
  | c1 :: rest =>
    if c1 == '3' then
      match rest with
      | c2 :: rest2 =>
        if c2 == '0' then some (30, rest2)
        else if c2 == '1' then some (31, rest2)
        else some (3, rest)
      | [] => some (3, [])
    else if c1 == '1' || c1 == '2' then
      match rest with
      | c2 :: rest2 =>
        if isAsciiDigit c2 then some ((c1.toNat - 48) * 10 + (c2.toNat - 48), rest2)
        else some (c1.toNat - 48, rest)
      | [] => some (c1.toNat - 48, [])
    else if c1 == '0' then
      match rest with
      | c2 :: rest2 =>
        if 49 ≤ c2.toNat && c2.toNat ≤ 57 then some (c2.toNat - 48, rest2) else none
      | [] => none
    else if 49 ≤ c1.toNat && c1.toNat ≤ 57 then some (c1.toNat - 48, rest)
    else none

/-- Value of the four captured year digits (`int(found_dict['Y'])`). -/
def val4 : List Char → Nat
  | [a, b, c, d] =>
    (a.toNat - 48) * 1000 + (b.toNat - 48) * 100 + (c.toNat - 48) * 10 + (d.toNat - 48)
  | _ => 0

/-- The `", %Y"` tail of both formats: a literal comma, `\s+`, exactly
four digits, and then the end of the input (`unconverted data remains`
otherwise). -/
def strptimeTail (l : List Char) : Option Nat :=
  match l with
  | c0 :: c1 :: rest =>
    if c0 == ',' && isPyWs c1 then
      match digits4 (rest.dropWhile isPyWs) with
      | some (yr, rest2) => if rest2.isEmpty then some (val4 yr) else none
      | none => none
    else none
  | _ => none

/-- `datetime.strptime(text, fmt).{year,month,day}` for the two formats
used by `parse_date`, parameterised by the month-name table; the final
check is the `datetime` constructor's validation (year ≥ 1, day within
the leap-aware month length). -/
def strptimeWith (table : List (List Char × Nat)) (l : List Char) :
    Option (Nat × Nat × Nat) :=
  match tryMonths table l with
  | none => none
  | some (m, r1) =>
    match ws1 r1 with
    | none => none
    | some r2 =>
      match parseDayChars r2 with
      | none => none
      | some (d, r3) =>
        match strptimeTail r3 with
        | none => none
        | some y =>
          if 1 ≤ y ∧ 1 ≤ d ∧ d ≤ daysInMonth m y then some (y, m, d) else none

/-- The text-normalisation pipeline applied before `strptime`: outer
strip, weekday-prefix removal, the two range rewrites, and the final
`date_text.strip()` done inside the `strptime` calls. -/
def normText (l : List Char) : List Char :=
  pystrip (crossMonthRewrite (sameMonthRewrite (stripWd (pystrip l))))

/-- `parse_date(date_text)`: returns the start date in `YYYY-MM-DD` form,
or `none` when no recognised pattern matches. -/
def parse_date (s : String) : Option String :=
  if s.data.isEmpty then none
  else
    match strptimeWith monthAbbr3 (normText s.data) with
    | some (y, m, d) => some (formatYmd y m d)
    | none =>
      match strptimeWith monthFull (normText s.data) with
      | some (y, m, d) => some (formatYmd y m d)
      | none => none

/-! ### Digit-character facts -/

theorem digitLit_isDigit_core : ∀ k, (digitLit k).isDigit = true := by
  intro k
  rcases k with _ | _ | _ | _ | _ | _ | _ | _ | _ | _ | k <;> rfl

theorem digitLit_not_ws : ∀ k, isPyWs (digitLit k) = false := by
  intro k
  rcases k with _ | _ | _ | _ | _ | _ | _ | _ | _ | _ | k <;> rfl

theorem digitLit_not_alpha : ∀ k, isAsciiAlpha (digitLit k) = false := by
  intro k
  rcases k with _ | _ | _ | _ | _ | _ | _ | _ | _ | _ | k <;> rfl

theorem digitLit_ascii_digit : ∀ k, isAsciiDigit (digitLit k) = true := by
  intro k
  rcases k with _ | _ | _ | _ | _ | _ | _ | _ | _ | _ | k <;> rfl

theorem digitLit_beq_dash : ∀ k, (digitLit k == '-') = false := by
  intro k
  rcases k with _ | _ | _ | _ | _ | _ | _ | _ | _ | _ | k <;> rfl

theorem digitLit_beq_comma : ∀ k, (digitLit k == ',') = false := by
  intro k
  rcases k with _ | _ | _ | _ | _ | _ | _ | _ | _ | _ | k <;> rfl

theorem digitLit_toNat_range : ∀ k, 48 ≤ (digitLit k).toNat ∧ (digitLit k).toNat ≤ 57 := by
  intro k
  rcases k with _ | _ | _ | _ | _ | _ | _ | _ | _ | _ | k <;>
    exact ⟨of_decide_eq_true rfl, of_decide_eq_true rfl⟩

/-! ### C10: `parse_date` output shape -/

theorem isDateFormat_formatYmd (y m d : Nat) : isDateFormat (formatYmd y m d) = true := by
  show isDateFormat (String.mk (pad4 y ++ '-' :: (pad2 m ++ '-' :: pad2 d))) = true
  simp [isDateFormat, pad4, pad2, digitLit_isDigit_core]

/-- C10: `parse_date` is total — it returns `none` or a string in exact
`YYYY-MM-DD` shape; in particular the validator's date-format regex
accepts every date it produces, and no input can make it raise. -/
theorem c10_parse_date_shape :
    ∀ (s r : String), parse_date s = some r → isDateFormat r = true := by
  intro s r h
  unfold parse_date at h
  rcases he : s.data.isEmpty with _ | _
  · simp only [he, Bool.false_eq_true, if_false] at h
    rcases h1 : strptimeWith monthAbbr3 (normText s.data) with _ | ⟨y, m, d⟩
    · rw [h1] at h
      rcases h2 : strptimeWith monthFull (normText s.data) with _ | ⟨y, m, d⟩
      · rw [h2] at h
        exact absurd h (by simp)
      · rw [h2] at h
        simp only [Option.some.injEq] at h
        rw [← h]
        exact isDateFormat_formatYmd y m d
    · rw [h1] at h
      simp only [Option.some.injEq] at h
      rw [← h]
      exact isDateFormat_formatYmd y m d
  · simp [he] at h

/-- C10 witness: the shape theorem applied at a concrete parse. -/
theorem c10_witness : isDateFormat "2026-01-24" = true :=
  c10_parse_date_shape "Sat, Jan 24, 2026" "2026-01-24" (by decide)

/-! ### Strings that start with a digit never parse (claim C2) -/

theorem ciDown_digitLit (k : Nat) (p : Char) (h1 : 97 ≤ p.toNat)
    (h2 : p.toNat ≤ 122) : ciDown (digitLit k) p = false := by
  obtain ⟨hlo, hhi⟩ := digitLit_toNat_range k
  simp only [ciDown, Bool.or_eq_false_iff]
  constructor
  · rw [beq_eq_false_iff_ne]
    intro heq
    have := congrArg Char.toNat heq
    omega
  · rw [beq_eq_false_iff_ne]
    omega

/-- Every month-name pattern starts with a lowercase letter. -/
def LowerHeadTable (table : List (List Char × Nat)) : Prop :=
  ∀ p ∈ table,
    match p.1 with
    | c :: _ => 97 ≤ c.toNat ∧ c.toNat ≤ 122
    | [] => False

theorem tryMonths_digitLit_none :
    ∀ table : List (List Char × Nat), LowerHeadTable table →
    ∀ (k : Nat) (l : List Char), tryMonths table (digitLit k :: l) = none := by
  intro table
  induction table with
  | nil => intro _ k l; rfl
  | cons p ps ih =>
    intro htab k l
    have hp := htab p (List.mem_cons_self _ _)
    rcases hq : p.1 with _ | ⟨c, cs⟩
    · rw [hq] at hp
      exact absurd hp (by simp)
    · rw [hq] at hp
      obtain ⟨h1, h2⟩ := hp
      simp only [tryMonths, hq, ciStarts, ciDown_digitLit k c h1 h2, if_false]
      exact ih (fun q hq2 => htab q (List.mem_cons_of_mem _ hq2)) k l

theorem strptimeWith_digitLit_none (table : List (List Char × Nat))
    (htab : LowerHeadTable table) (k : Nat) (l : List Char) :
    strptimeWith table (digitLit k :: l) = none := by
  unfold strptimeWith
  rw [tryMonths_digitLit_none table htab k l]

theorem dropWhile_cons_of_false {c : Char} {l : List Char}
    (h : isPyWs c = false) : (c :: l).dropWhile isPyWs = c :: l := by
  simp [List.dropWhile_cons, h]

/-- `str.strip()` is the identity on a string whose two end characters
are not whitespace. -/
theorem pystrip_sandwich (c z : Char) (mid : List Char)
    (hc : isPyWs c = false) (hz : isPyWs z = false) :
    pystrip (c :: (mid ++ [z])) = c :: (mid ++ [z]) := by
  unfold pystrip
  rw [dropWhile_cons_of_false hc]
  have hrev : (c :: (mid ++ [z])).reverse = z :: (mid.reverse ++ [c]) := by
    simp
  rw [hrev, dropWhile_cons_of_false hz, ← hrev, List.reverse_reverse]

theorem stripWd_digit_head (k : Nat) (c2 c3 : Char) (rest : List Char) :
    stripWd (digitLit k :: c2 :: c3 :: rest) = digitLit k :: c2 :: c3 :: rest := by
  simp [stripWd, digitLit_not_alpha]

theorem matchSameMonth_digit_head (k : Nat) (c2 c3 : Char) (rest : List Char) :
    matchSameMonth (digitLit k :: c2 :: c3 :: rest) = none := by
  simp [matchSameMonth, digitLit_not_alpha]

theorem matchCrossMonth_digit_head (k : Nat) (c2 c3 : Char) (rest : List Char) :
    matchCrossMonth (digitLit k :: c2 :: c3 :: rest) = none := by
  simp [matchCrossMonth, digitLit_not_alpha]

theorem lowerHead_monthAbbr3 : LowerHeadTable monthAbbr3 := by
  intro p hp
  fin_cases hp <;> exact ⟨of_decide_eq_true rfl, of_decide_eq_true rfl⟩

theorem lowerHead_monthFull : LowerHeadTable monthFull := by
  intro p hp
  fin_cases hp <;> exact ⟨of_decide_eq_true rfl, of_decide_eq_true rfl⟩

/-- C2 counterexample: re-parsing the already-normalized string
"2026-03-20" yields `none`, not the same string — `parse_date` only
recognises month-name formats, so normalization is not idempotent. -/
theorem c2_counterexample :
    formatYmd 2026 3 20 = "2026-03-20" ∧ parse_date "2026-03-20" = none := by
  constructor
  · rfl
  · decide

/-- C2 amended: re-parsing any already-normalized `YYYY-MM-DD` output of
the normalizer returns `none` (never the same string): the digit-headed
text matches no weekday prefix, no range rewrite, and no month name. -/
theorem c2_reparse_gives_none : ∀ y m d : Nat, parse_date (formatYmd y m d) = none := by
  intro y m d
  have hdata : (formatYmd y m d).data = pad4 y ++ '-' :: (pad2 m ++ '-' :: pad2 d) := rfl
  have hshape : pad4 y ++ '-' :: (pad2 m ++ '-' :: pad2 d) =
      digitLit (y / 1000 % 10) ::
        ([digitLit (y / 100 % 10), digitLit (y / 10 % 10), digitLit (y % 10), '-',
          digitLit (m / 10 % 10), digitLit (m % 10), '-', digitLit (d / 10 % 10)] ++
          [digitLit (d % 10)]) := by
    simp [pad4, pad2]
  unfold parse_date
  rw [hdata, hshape]
  have hne : (digitLit (y / 1000 % 10) ::
      ([digitLit (y / 100 % 10), digitLit (y / 10 % 10), digitLit (y % 10), '-',
        digitLit (m / 10 % 10), digitLit (m % 10), '-', digitLit (d / 10 % 10)] ++
        [digitLit (d % 10)])).isEmpty = false := rfl
  rw [hne]
  have hstrip := pystrip_sandwich (digitLit (y / 1000 % 10)) (digitLit (d % 10))
    [digitLit (y / 100 % 10), digitLit (y / 10 % 10), digitLit (y % 10), '-',
      digitLit (m / 10 % 10), digitLit (m % 10), '-', digitLit (d / 10 % 10)]
    (digitLit_not_ws _) (digitLit_not_ws _)
  have hnorm : normText (digitLit (y / 1000 % 10) ::
      ([digitLit (y / 100 % 10), digitLit (y / 10 % 10), digitLit (y % 10), '-',
        digitLit (m / 10 % 10), digitLit (m % 10), '-', digitLit (d / 10 % 10)] ++
        [digitLit (d % 10)])) =
      digitLit (y / 1000 % 10) ::
      ([digitLit (y / 100 % 10), digitLit (y / 10 % 10), digitLit (y % 10), '-',
        digitLit (m / 10 % 10), digitLit (m % 10), '-', digitLit (d / 10 % 10)] ++
        [digitLit (d % 10)]) := by
    unfold normText
    rw [hstrip]
    rw [show (digitLit (y / 1000 % 10) ::
      ([digitLit (y / 100 % 10), digitLit (y / 10 % 10), digitLit (y % 10), '-',
        digitLit (m / 10 % 10), digitLit (m % 10), '-', digitLit (d / 10 % 10)] ++
        [digitLit (d % 10)])) = digitLit (y / 1000 % 10) :: digitLit (y / 100 % 10) ::
        digitLit (y / 10 % 10) :: (digitLit (y % 10) :: '-' ::
        digitLit (m / 10 % 10) :: digitLit (m % 10) :: '-' ::
        digitLit (d / 10 % 10) :: [digitLit (d % 10)]) from by simp]
    rw [stripWd_digit_head]
    unfold sameMonthRewrite crossMonthRewrite
    rw [matchSameMonth_digit_head, matchCrossMonth_digit_head]
    exact hstrip
  rw [hnorm]
  rw [strptimeWith_digitLit_none monthAbbr3 lowerHead_monthAbbr3 _ _,
    strptimeWith_digitLit_none monthFull lowerHead_monthFull _ _]
  rfl

/-! ### C1: recognised date tokens parse to their start date

A recognised date token (the shape matched by the extraction regex in
`parse_tournaments` and handled by `parse_date`) is rendered from its
components: an optional three-letter weekday (or weekday-range) prefix,
a month abbreviation, a 1-2 digit start day, an optional same-month or
cross-month trailing range, and a four-digit year.
-/

inductive Month where
  | jan | feb | mar | apr | may | jun | jul | aug | sep | oct | nov | dec
deriving DecidableEq, Repr

def Month.chars : Month → List Char
  | .jan => "Jan".data | .feb => "Feb".data | .mar => "Mar".data
  | .apr => "Apr".data | .may => "May".data | .jun => "Jun".data
  | .jul => "Jul".data | .aug => "Aug".data | .sep => "Sep".data
  | .oct => "Oct".data | .nov => "Nov".data | .dec => "Dec".data

def Month.num : Month → Nat
  | .jan => 1 | .feb => 2 | .mar => 3 | .apr => 4 | .may => 5 | .jun => 6
  | .jul => 7 | .aug => 8 | .sep => 9 | .oct => 10 | .nov => 11 | .dec => 12

/-- The decimal numeral of a day (no leading zero below ten), as it
appears in the source markup. -/
def render2 (d : Nat) : List Char :=
  if d < 10 then [digitLit d] else [digitLit (d / 10 % 10), digitLit (d % 10)]

/-- The optional trailing range of a multi-day event: nothing, a
same-month end day, or a month-and-day in a later month. -/
inductive RangeSfx where
  | noRange : RangeSfx
  | sameMonth (d2 : Nat) : RangeSfx
  | crossMonth (a b c : Char) (d2 : Nat) : RangeSfx
deriving DecidableEq

def renderWd : Option (Char × Char × Char × Option (Char × Char × Char)) → List Char
  | none => []
  | some (a, b, c, none) => [a, b, c, ',', ' ']
  | some (a, b, c, some (x, z, w)) => [a, b, c, '-', x, z, w, ',', ' ']

def renderRange : RangeSfx → List Char
  | .noRange => []
  | .sameMonth d2 => '-' :: render2 d2
  | .crossMonth a b c d2 => '-' :: a :: b :: c :: ' ' :: render2 d2

/-- The full date token text. -/
def renderToken (p : Option (Char × Char × Char × Option (Char × Char × Char)))
    (m : Month) (d : Nat) (rng : RangeSfx) (y : Nat) : List Char :=
  renderWd p ++ (m.chars ++ ' ' :: (render2 d ++ renderRange rng ++ ',' :: ' ' :: pad4 y))

/-- The weekday prefix consists of ASCII letters. -/
def WdOK : Option (Char × Char × Char × Option (Char × Char × Char)) → Prop
  | none => True
  | some (a, b, c, none) =>
    isAsciiAlpha a = true ∧ isAsciiAlpha b = true ∧ isAsciiAlpha c = true
  | some (a, b, c, some (x, z, w)) =>
    isAsciiAlpha a = true ∧ isAsciiAlpha b = true ∧ isAsciiAlpha c = true ∧
    isAsciiAlpha x = true ∧ isAsciiAlpha z = true ∧ isAsciiAlpha w = true

/-- The trailing range is well-formed: its end day has 1-2 digits and a
cross-month name consists of ASCII letters. -/
def RangeOK : RangeSfx → Prop
  | .noRange => True
  | .sameMonth d2 => d2 ≤ 99
  | .crossMonth a b c d2 =>
    isAsciiAlpha a = true ∧ isAsciiAlpha b = true ∧ isAsciiAlpha c = true ∧ d2 ≤ 99

/-! #### Character-class consequences -/

theorem alpha_toNat_range (c : Char) (h : isAsciiAlpha c = true) :
    (65 ≤ c.toNat ∧ c.toNat ≤ 90) ∨ (97 ≤ c.toNat ∧ c.toNat ≤ 122) := by
  simp only [isAsciiAlpha, Bool.or_eq_true, Bool.and_eq_true, decide_eq_true_eq] at h
  exact h

theorem alpha_not_ws (c : Char) (h : isAsciiAlpha c = true) : isPyWs c = false := by
  have hr := alpha_toNat_range c h
  simp only [isPyWs, Bool.or_eq_false_iff]
  refine ⟨⟨⟨⟨⟨?_, ?_⟩, ?_⟩, ?_⟩, ?_⟩, ?_⟩ <;>
    · refine beq_eq_false_iff_ne.mpr fun heq => ?_
      subst heq
      revert hr
      decide

theorem alpha_not_digit (c : Char) (h : isAsciiAlpha c = true) :
    isAsciiDigit c = false := by
  have hr := alpha_toNat_range c h
  simp only [isAsciiDigit, Bool.and_eq_false_iff, decide_eq_false_iff_not]
  omega

theorem alpha_beq_comma (c : Char) (h : isAsciiAlpha c = true) : (c == ',') = false := by
  have hr := alpha_toNat_range c h
  refine beq_eq_false_iff_ne.mpr fun heq => ?_
  subst heq
  revert hr
  decide

/-! #### Rendered components against the matchers -/

theorem dropWhile_ws_render2 (d : Nat) (rest : List Char) :
    (render2 d ++ rest).dropWhile isPyWs = render2 d ++ rest := by
  by_cases h : d < 10 <;> simp [render2, h, List.dropWhile_cons, digitLit_not_ws]

theorem ws1_sp (X : List Char) (hX : X.dropWhile isPyWs = X) :
    ws1 (' ' :: X) = some X := by
  simp [ws1, hX, show isPyWs ' ' = true from rfl]

theorem dropWhile_ws_pad4 (y : Nat) : (pad4 y).dropWhile isPyWs = pad4 y := by
  simp [pad4, List.dropWhile_cons, digitLit_not_ws]

theorem digits4_pad4 (y : Nat) : digits4 (pad4 y) = some (pad4 y, []) := by
  simp [digits4, pad4, digitLit_ascii_digit]

theorem dayThen_render2_some (dd : Nat) (sep : Char) (rest : List Char)
    (hsep : ∀ k, (digitLit k == sep) = false) :
    dayThen sep (render2 dd ++ sep :: rest) = some (render2 dd, rest) := by
  by_cases h : dd < 10
  · simp [render2, h, dayThen, digitLit_ascii_digit]
  · simp [render2, h, dayThen, digitLit_ascii_digit, hsep]

theorem dayThen_render2_none (dd : Nat) (sep c : Char) (rest : List Char)
    (hc1 : (c == sep) = false) (hc2 : isAsciiDigit c = false)
    (hsep : ∀ k, (digitLit k == sep) = false) :
    dayThen sep (render2 dd ++ c :: rest) = none := by
  by_cases h : dd < 10
  · simp [render2, h, dayThen, digitLit_ascii_digit, hc1, hc2]
  · simp [render2, h, dayThen, digitLit_ascii_digit, hsep, hc1, hc2]

theorem dayThen_alpha_head (sep x z : Char) (rest : List Char)
    (hx : isAsciiAlpha x = true) :
    dayThen sep (x :: z :: rest) = none := by
  simp [dayThen, alpha_not_digit x hx]

theorem matchSameMonth_comma (c1 c2 c3 : Char) (d : Nat) (rest : List Char)
    (h1 : isAsciiAlpha c1 = true) (h2 : isAsciiAlpha c2 = true)
    (h3 : isAsciiAlpha c3 = true) :
    matchSameMonth (c1 :: c2 :: c3 :: ' ' :: (render2 d ++ ',' :: rest)) = none := by
  simp only [matchSameMonth, h1, h2, h3, Bool.and_self, if_true,
    ws1_sp _ (dropWhile_ws_render2 d (',' :: rest)),
    dayThen_render2_none d '-' ',' rest rfl rfl digitLit_beq_dash]

theorem matchCrossMonth_comma (c1 c2 c3 : Char) (d : Nat) (rest : List Char)
    (h1 : isAsciiAlpha c1 = true) (h2 : isAsciiAlpha c2 = true)
    (h3 : isAsciiAlpha c3 = true) :
    matchCrossMonth (c1 :: c2 :: c3 :: ' ' :: (render2 d ++ ',' :: rest)) = none := by
  simp only [matchCrossMonth, h1, h2, h3, Bool.and_self, if_true,
    ws1_sp _ (dropWhile_ws_render2 d (',' :: rest)),
    dayThen_render2_none d '-' ',' rest rfl rfl digitLit_beq_dash]

theorem matchSameMonth_range (c1 c2 c3 : Char) (d d2 y : Nat)
    (h1 : isAsciiAlpha c1 = true) (h2 : isAsciiAlpha c2 = true)
    (h3 : isAsciiAlpha c3 = true) :
    matchSameMonth (c1 :: c2 :: c3 :: ' ' ::
      (render2 d ++ '-' :: (render2 d2 ++ ',' :: ' ' :: pad4 y))) =
      some ([c1, c2, c3], render2 d, pad4 y) := by
  have hws : (' ' :: pad4 y).dropWhile isPyWs = pad4 y := by
    simp [List.dropWhile_cons, dropWhile_ws_pad4, show isPyWs ' ' = true from rfl]
  simp only [matchSameMonth, h1, h2, h3, Bool.and_self, if_true,
    ws1_sp _ (dropWhile_ws_render2 d ('-' :: (render2 d2 ++ ',' :: ' ' :: pad4 y))),
    dayThen_render2_some d '-' (render2 d2 ++ ',' :: ' ' :: pad4 y) digitLit_beq_dash,
    dayThen_render2_some d2 ',' (' ' :: pad4 y) digitLit_beq_comma,
    hws, digits4_pad4]

theorem matchSameMonth_crosstext (c1 c2 c3 x z w : Char) (d : Nat) (rest : List Char)
    (h1 : isAsciiAlpha c1 = true) (h2 : isAsciiAlpha c2 = true)
    (h3 : isAsciiAlpha c3 = true) (hx : isAsciiAlpha x = true) :
    matchSameMonth (c1 :: c2 :: c3 :: ' ' ::
      (render2 d ++ '-' :: (x :: z :: w :: rest))) = none := by
  simp only [matchSameMonth, h1, h2, h3, Bool.and_self, if_true,
    ws1_sp _ (dropWhile_ws_render2 d ('-' :: (x :: z :: w :: rest))),
    dayThen_render2_some d '-' (x :: z :: w :: rest) digitLit_beq_dash,
    dayThen_alpha_head ',' x z (w :: rest) hx]

theorem matchCrossMonth_range (c1 c2 c3 x z w : Char) (d d2 y : Nat)
    (h1 : isAsciiAlpha c1 = true) (h2 : isAsciiAlpha c2 = true)
    (h3 : isAsciiAlpha c3 = true) (hx : isAsciiAlpha x = true)
    (hz : isAsciiAlpha z = true) (hw : isAsciiAlpha w = true) :
    matchCrossMonth (c1 :: c2 :: c3 :: ' ' ::
      (render2 d ++ '-' :: (x :: z :: w :: ' ' :: (render2 d2 ++ ',' :: ' ' :: pad4 y)))) =
      some ([c1, c2, c3], render2 d, pad4 y) := by
  have hws : (' ' :: pad4 y).dropWhile isPyWs = pad4 y := by
    simp [List.dropWhile_cons, dropWhile_ws_pad4, show isPyWs ' ' = true from rfl]
  simp only [matchCrossMonth, h1, h2, h3, hx, hz, hw, Bool.and_self, if_true,
    ws1_sp _ (dropWhile_ws_render2 d _),
    dayThen_render2_some d '-' (x :: z :: w :: ' ' :: (render2 d2 ++ ',' :: ' ' :: pad4 y))
      digitLit_beq_dash,
    ws1_sp _ (dropWhile_ws_render2 d2 (',' :: ' ' :: pad4 y)),
    dayThen_render2_some d2 ',' (' ' :: pad4 y) digitLit_beq_comma,
    hws, digits4_pad4]

theorem parseDayChars_render2 (d : Nat) (rest : List Char)
    (hd1 : 1 ≤ d) (hd2 : d ≤ 31) :
    parseDayChars (render2 d ++ ',' :: rest) = some (d, ',' :: rest) := by
  interval_cases d <;> rfl

theorem strptimeTail_std (y : Nat) (hy : y ≤ 9999) :
    strptimeTail (',' :: ' ' :: pad4 y) = some y := by
  have hval : val4 (pad4 y) = y := by
    have t1 := digitLit_toNat (y / 1000 % 10) (Nat.mod_lt _ (by omega))
    have t2 := digitLit_toNat (y / 100 % 10) (Nat.mod_lt _ (by omega))
    have t3 := digitLit_toNat (y / 10 % 10) (Nat.mod_lt _ (by omega))
    have t4 := digitLit_toNat (y % 10) (Nat.mod_lt _ (by omega))
    simp only [pad4, val4, t1, t2, t3, t4]
    omega
  simp only [strptimeTail, show ((',' == ',') && isPyWs ' ') = true from rfl, if_true,
    dropWhile_ws_pad4, digits4_pad4, List.isEmpty_nil, if_true, hval]

theorem strptimeWith_canonical (table : List (List Char × Nat)) (l : List Char)
    (mn d y : Nat)
    (hm : tryMonths table l = some (mn, ' ' :: (render2 d ++ ',' :: ' ' :: pad4 y)))
    (hd1 : 1 ≤ d) (hd31 : d ≤ 31) (hdm : d ≤ daysInMonth mn y)
    (hy1 : 1 ≤ y) (hy2 : y ≤ 9999) :
    strptimeWith table l = some (y, mn, d) := by
  simp only [strptimeWith, hm, ws1_sp _ (dropWhile_ws_render2 d (',' :: ' ' :: pad4 y)),
    parseDayChars_render2 d (' ' :: pad4 y) hd1 hd31, strptimeTail_std y hy2]
  rw [if_pos ⟨hy1, hd1, hdm⟩]

/-! #### The weekday-prefix strip on rendered tokens -/

theorem stripWd_month (c1 c2 c3 : Char) (X : List Char)
    (h1 : isAsciiAlpha c1 = true) (h2 : isAsciiAlpha c2 = true)
    (h3 : isAsciiAlpha c3 = true) :
    stripWd (c1 :: c2 :: c3 :: ' ' :: X) = c1 :: c2 :: c3 :: ' ' :: X := by
  simp [stripWd, h1, h2, h3, show ((' ' == ',') = false) from rfl,
    show ((' ' == '-') = false) from rfl]

theorem stripWd_wd1 (a b c m1 : Char) (rest : List Char)
    (ha : isAsciiAlpha a = true) (hb : isAsciiAlpha b = true)
    (hc : isAsciiAlpha c = true) (hm1 : isPyWs m1 = false) :
    stripWd (a :: b :: c :: ',' :: ' ' :: m1 :: rest) = m1 :: rest := by
  simp [stripWd, ha, hb, hc, List.dropWhile_cons, hm1,
    show isPyWs ' ' = true from rfl]

theorem stripWd_wd2 (a b c x z w m1 : Char) (rest : List Char)
    (ha : isAsciiAlpha a = true) (hb : isAsciiAlpha b = true)
    (hc : isAsciiAlpha c = true) (hx : isAsciiAlpha x = true)
    (hz : isAsciiAlpha z = true) (hw : isAsciiAlpha w = true)
    (hm1 : isPyWs m1 = false) :
    stripWd (a :: b :: c :: '-' :: x :: z :: w :: ',' :: ' ' :: m1 :: rest) =
      m1 :: rest := by
  simp [stripWd, ha, hb, hc, hx, hz, hw, List.dropWhile_cons, hm1,
    show (('-' == ',') = false) from rfl, show (('-' == '-') = true) from rfl,
    show isPyWs ' ' = true from rfl]

/-! #### `str.strip()` is the identity on rendered tokens -/

theorem pystrip_eq_self (l : List Char)
    (h1 : ∀ x, l.head? = some x → isPyWs x = false)
    (h2 : ∀ x, l.getLast? = some x → isPyWs x = false) : pystrip l = l := by
  unfold pystrip
  have e1 : l.dropWhile isPyWs = l := by
    cases l with
    | nil => rfl
    | cons c cs => exact dropWhile_cons_of_false (h1 c rfl)
  rw [e1]
  have e2 : l.reverse.dropWhile isPyWs = l.reverse := by
    cases hrl : l.reverse with
    | nil => rfl
    | cons c cs =>
      refine dropWhile_cons_of_false (h2 c ?_)
      rw [← List.head?_reverse, hrl]
      rfl
  rw [e2, List.reverse_reverse]

/-- The canonical text reached after the range rewrites. -/
def canonTok (mc1 mc2 mc3 : Char) (d y : Nat) : List Char :=
  mc1 :: mc2 :: mc3 :: ' ' :: (render2 d ++ ',' :: ' ' :: pad4 y)

theorem rewrites_canon (mc1 mc2 mc3 : Char) (d y : Nat) (rng : RangeSfx)
    (hmc1 : isAsciiAlpha mc1 = true) (hmc2 : isAsciiAlpha mc2 = true)
    (hmc3 : isAsciiAlpha mc3 = true) (hr : RangeOK rng) :
    crossMonthRewrite (sameMonthRewrite
      (mc1 :: mc2 :: mc3 :: ' ' :: (render2 d ++ renderRange rng ++ ',' :: ' ' :: pad4 y))) =
      canonTok mc1 mc2 mc3 d y := by
  have hcanon_same : sameMonthRewrite (canonTok mc1 mc2 mc3 d y) = canonTok mc1 mc2 mc3 d y := by
    unfold sameMonthRewrite canonTok
    rw [matchSameMonth_comma mc1 mc2 mc3 d (' ' :: pad4 y) hmc1 hmc2 hmc3]
  have hcanon_cross : crossMonthRewrite (canonTok mc1 mc2 mc3 d y) = canonTok mc1 mc2 mc3 d y := by
    unfold crossMonthRewrite canonTok
    rw [matchCrossMonth_comma mc1 mc2 mc3 d (' ' :: pad4 y) hmc1 hmc2 hmc3]
  rcases rng with _ | d2 | ⟨x, z, w, d2⟩
  · have h0 : mc1 :: mc2 :: mc3 :: ' ' ::
        (render2 d ++ renderRange RangeSfx.noRange ++ ',' :: ' ' :: pad4 y) =
        canonTok mc1 mc2 mc3 d y := by
      simp [renderRange, canonTok]
    rw [h0, hcanon_same, hcanon_cross]
  · have h0 : mc1 :: mc2 :: mc3 :: ' ' ::
        (render2 d ++ renderRange (RangeSfx.sameMonth d2) ++ ',' :: ' ' :: pad4 y) =
        mc1 :: mc2 :: mc3 :: ' ' ::
          (render2 d ++ '-' :: (render2 d2 ++ ',' :: ' ' :: pad4 y)) := by
      simp [renderRange]
    rw [h0]
    have h1 : sameMonthRewrite (mc1 :: mc2 :: mc3 :: ' ' ::
        (render2 d ++ '-' :: (render2 d2 ++ ',' :: ' ' :: pad4 y))) =
        canonTok mc1 mc2 mc3 d y := by
      unfold sameMonthRewrite
      rw [matchSameMonth_range mc1 mc2 mc3 d d2 y hmc1 hmc2 hmc3]
      simp [canonTok]
    rw [h1, hcanon_cross]
  · obtain ⟨hx, hz, hw, _⟩ := hr
    have h0 : mc1 :: mc2 :: mc3 :: ' ' ::
        (render2 d ++ renderRange (RangeSfx.crossMonth x z w d2) ++ ',' :: ' ' :: pad4 y) =
        mc1 :: mc2 :: mc3 :: ' ' ::
          (render2 d ++ '-' :: (x :: z :: w :: ' ' :: (render2 d2 ++ ',' :: ' ' :: pad4 y))) := by
      simp [renderRange]
    rw [h0]
    have h1 : sameMonthRewrite (mc1 :: mc2 :: mc3 :: ' ' ::
        (render2 d ++ '-' :: (x :: z :: w :: ' ' :: (render2 d2 ++ ',' :: ' ' :: pad4 y)))) =
        mc1 :: mc2 :: mc3 :: ' ' ::
          (render2 d ++ '-' :: (x :: z :: w :: ' ' :: (render2 d2 ++ ',' :: ' ' :: pad4 y))) := by
      unfold sameMonthRewrite
      rw [matchSameMonth_crosstext mc1 mc2 mc3 x z w d
        (' ' :: (render2 d2 ++ ',' :: ' ' :: pad4 y)) hmc1 hmc2 hmc3 hx]
    rw [h1]
    have h2 : crossMonthRewrite (mc1 :: mc2 :: mc3 :: ' ' ::
        (render2 d ++ '-' :: (x :: z :: w :: ' ' :: (render2 d2 ++ ',' :: ' ' :: pad4 y)))) =
        canonTok mc1 mc2 mc3 d y := by
      unfold crossMonthRewrite
      rw [matchCrossMonth_range mc1 mc2 mc3 x z w d d2 y hmc1 hmc2 hmc3 hx hz hw]
      simp [canonTok]
    rw [h2]

theorem getLast?_endsWith_pad4 (A : List Char) (y : Nat) :
    (A ++ pad4 y).getLast? = some (digitLit (y % 10)) := by
  rw [List.getLast?_append_of_ne_nil A (by simp [pad4])]
  rfl

theorem pystrip_canon (mc1 mc2 mc3 : Char) (d y : Nat)
    (hmc1 : isAsciiAlpha mc1 = true) :
    pystrip (canonTok mc1 mc2 mc3 d y) = canonTok mc1 mc2 mc3 d y := by
  refine pystrip_eq_self _ ?_ ?_
  · intro x hx
    simp only [canonTok, List.head?_cons, Option.some.injEq] at hx
    rw [← hx]
    exact alpha_not_ws mc1 hmc1
  · intro x hx
    have hsh : canonTok mc1 mc2 mc3 d y =
        (mc1 :: mc2 :: mc3 :: ' ' :: (render2 d ++ [',', ' '])) ++ pad4 y := by
      simp [canonTok]
    rw [hsh, getLast?_endsWith_pad4] at hx
    simp only [Option.some.injEq] at hx
    rw [← hx]
    exact digitLit_not_ws _

theorem parse_date_render
    (p : Option (Char × Char × Char × Option (Char × Char × Char)))
    (mc1 mc2 mc3 : Char) (mn d y : Nat) (rng : RangeSfx)
    (hmc1 : isAsciiAlpha mc1 = true) (hmc2 : isAsciiAlpha mc2 = true)
    (hmc3 : isAsciiAlpha mc3 = true)
    (hp : WdOK p) (hr : RangeOK rng)
    (htm : ∀ r : List Char, tryMonths monthAbbr3 (mc1 :: mc2 :: mc3 :: r) = some (mn, r))
    (hd1 : 1 ≤ d) (hdm : d ≤ daysInMonth mn y)
    (hy1 : 1 ≤ y) (hy2 : y ≤ 9999) :
    parse_date (String.mk (renderWd p ++ mc1 :: mc2 :: mc3 :: ' ' ::
      (render2 d ++ renderRange rng ++ ',' :: ' ' :: pad4 y))) =
      some (formatYmd y mn d) := by
  have hd31 : d ≤ 31 := le_trans hdm (daysInMonth_le_31 mn y)
  -- the body text after the weekday prefix
  have hstrip : pystrip (renderWd p ++ mc1 :: mc2 :: mc3 :: ' ' ::
      (render2 d ++ renderRange rng ++ ',' :: ' ' :: pad4 y)) =
      renderWd p ++ mc1 :: mc2 :: mc3 :: ' ' ::
        (render2 d ++ renderRange rng ++ ',' :: ' ' :: pad4 y) := by
    refine pystrip_eq_self _ ?_ ?_
    · intro x hx
      rcases p with _ | ⟨a, b, c, _ | ⟨x2, z2, w2⟩⟩
      · simp only [renderWd, List.nil_append, List.head?_cons, Option.some.injEq] at hx
        rw [← hx]; exact alpha_not_ws mc1 hmc1
      · simp only [renderWd, List.cons_append, List.head?_cons, Option.some.injEq] at hx
        rw [← hx]; exact alpha_not_ws a hp.1
      · simp only [renderWd, List.cons_append, List.head?_cons, Option.some.injEq] at hx
        rw [← hx]; exact alpha_not_ws a hp.1
    · intro x hx
      have hsh : renderWd p ++ mc1 :: mc2 :: mc3 :: ' ' ::
          (render2 d ++ renderRange rng ++ ',' :: ' ' :: pad4 y) =
          (renderWd p ++ mc1 :: mc2 :: mc3 :: ' ' ::
            (render2 d ++ renderRange rng ++ [',', ' '])) ++ pad4 y := by
        simp
      rw [hsh, getLast?_endsWith_pad4] at hx
      simp only [Option.some.injEq] at hx
      rw [← hx]
      exact digitLit_not_ws _
  have hwd : stripWd (renderWd p ++ mc1 :: mc2 :: mc3 :: ' ' ::
      (render2 d ++ renderRange rng ++ ',' :: ' ' :: pad4 y)) =
      mc1 :: mc2 :: mc3 :: ' ' ::
        (render2 d ++ renderRange rng ++ ',' :: ' ' :: pad4 y) := by
    rcases p with _ | ⟨a, b, c, _ | ⟨x2, z2, w2⟩⟩
    · simp only [renderWd, List.nil_append]
      exact stripWd_month mc1 mc2 mc3 _ hmc1 hmc2 hmc3
    · obtain ⟨ha, hb, hc⟩ := hp
      simp only [renderWd, List.cons_append, List.nil_append]
      exact stripWd_wd1 a b c mc1 _ ha hb hc (alpha_not_ws mc1 hmc1)
    · obtain ⟨ha, hb, hc, hx2, hz2, hw2⟩ := hp
      simp only [renderWd, List.cons_append, List.nil_append]
      exact stripWd_wd2 a b c x2 z2 w2 mc1 _ ha hb hc hx2 hz2 hw2
        (alpha_not_ws mc1 hmc1)
  have hnorm : normText (renderWd p ++ mc1 :: mc2 :: mc3 :: ' ' ::
      (render2 d ++ renderRange rng ++ ',' :: ' ' :: pad4 y)) =
      canonTok mc1 mc2 mc3 d y := by
    unfold normText
    rw [hstrip, hwd, rewrites_canon mc1 mc2 mc3 d y rng hmc1 hmc2 hmc3 hr,
      pystrip_canon mc1 mc2 mc3 d y hmc1]
  have hsw : strptimeWith monthAbbr3 (canonTok mc1 mc2 mc3 d y) = some (y, mn, d) :=
    strptimeWith_canonical monthAbbr3 _ mn d y
      (htm (' ' :: (render2 d ++ ',' :: ' ' :: pad4 y))) hd1 hd31 hdm hy1 hy2
  have hne : (renderWd p ++ mc1 :: mc2 :: mc3 :: ' ' ::
      (render2 d ++ renderRange rng ++ ',' :: ' ' :: pad4 y)).isEmpty = false := by
    rcases p with _ | ⟨a, b, c, _ | ⟨x2, z2, w2⟩⟩ <;> simp [renderWd]
  unfold parse_date
  have hdata : (String.mk (renderWd p ++ mc1 :: mc2 :: mc3 :: ' ' ::
      (render2 d ++ renderRange rng ++ ',' :: ' ' :: pad4 y))).data =
      renderWd p ++ mc1 :: mc2 :: mc3 :: ' ' ::
        (render2 d ++ renderRange rng ++ ',' :: ' ' :: pad4 y) := rfl
  rw [hdata, hne, hnorm, hsw]
  rfl

/-- C1: every recognised date token — optional three-letter weekday or
weekday-range prefix, month abbreviation, day, optional same-month or
cross-month trailing range, four-digit year — parses to the START date
only, normalized to `YYYY-MM-DD`: the weekday prefix is stripped and both
range forms resolve to the first day listed. -/
theorem c1_parse_date_start_date
    (p : Option (Char × Char × Char × Option (Char × Char × Char)))
    (m : Month) (d : Nat) (rng : RangeSfx) (y : Nat)
    (hp : WdOK p) (hr : RangeOK rng)
    (hd1 : 1 ≤ d) (hdm : d ≤ daysInMonth m.num y)
    (hy1 : 1 ≤ y) (hy2 : y ≤ 9999) :
    parse_date (String.mk (renderToken p m d rng y)) = some (formatYmd y m.num d) := by
  cases m with
  | jan =>
    exact parse_date_render p 'J' 'a' 'n' 1 d y rng rfl rfl rfl hp hr
      (fun r => rfl) hd1 hdm hy1 hy2
  | feb =>
    exact parse_date_render p 'F' 'e' 'b' 2 d y rng rfl rfl rfl hp hr
      (fun r => rfl) hd1 hdm hy1 hy2
  | mar =>
    exact parse_date_render p 'M' 'a' 'r' 3 d y rng rfl rfl rfl hp hr
      (fun r => rfl) hd1 hdm hy1 hy2
  | apr =>
    exact parse_date_render p 'A' 'p' 'r' 4 d y rng rfl rfl rfl hp hr
      (fun r => rfl) hd1 hdm hy1 hy2
  | may =>
    exact parse_date_render p 'M' 'a' 'y' 5 d y rng rfl rfl rfl hp hr
      (fun r => rfl) hd1 hdm hy1 hy2
  | jun =>
    exact parse_date_render p 'J' 'u' 'n' 6 d y rng rfl rfl rfl hp hr
      (fun r => rfl) hd1 hdm hy1 hy2
  | jul =>
    exact parse_date_render p 'J' 'u' 'l' 7 d y rng rfl rfl rfl hp hr
      (fun r => rfl) hd1 hdm hy1 hy2
  | aug =>
    exact parse_date_render p 'A' 'u' 'g' 8 d y rng rfl rfl rfl hp hr
      (fun r => rfl) hd1 hdm hy1 hy2
  | sep =>
    exact parse_date_render p 'S' 'e' 'p' 9 d y rng rfl rfl rfl hp hr
      (fun r => rfl) hd1 hdm hy1 hy2
  | oct =>
    exact parse_date_render p 'O' 'c' 't' 10 d y rng rfl rfl rfl hp hr
      (fun r => rfl) hd1 hdm hy1 hy2
  | nov =>
    exact parse_date_render p 'N' 'o' 'v' 11 d y rng rfl rfl rfl hp hr
      (fun r => rfl) hd1 hdm hy1 hy2
  | dec =>
    exact parse_date_render p 'D' 'e' 'c' 12 d y rng rfl rfl rfl hp hr
      (fun r => rfl) hd1 hdm hy1 hy2

/-- C1 witness: the spec's own example token. -/
theorem c1_witness : parse_date "Fri-Sun, Mar 20-22, 2026" = some "2026-03-20" := by
  have h := c1_parse_date_start_date (some ('F', 'r', 'i', some ('S', 'u', 'n')))
    Month.mar 20 (RangeSfx.sameMonth 22) 2026
    ⟨rfl, rfl, rfl, rfl, rfl, rfl⟩ (show (22 : Nat) ≤ 99 from of_decide_eq_true rfl)
    (of_decide_eq_true rfl) (of_decide_eq_true rfl) (of_decide_eq_true rfl)
    (of_decide_eq_true rfl)
  have e1 : String.mk (renderToken (some ('F', 'r', 'i', some ('S', 'u', 'n')))
      Month.mar 20 (RangeSfx.sameMonth 22) 2026) = "Fri-Sun, Mar 20-22, 2026" := by
    decide
  have e2 : formatYmd 2026 Month.mar.num 20 = "2026-03-20" := by decide
  rw [e1, e2] at h
  exact h
